import Mathlib

/-!
Shallow embedding of the core of the `vlm-eden-dataset-etl` pipeline:

* `etl/transform/data_processor.py` — `DataProcessor.process_batch` and
  `DataProcessor.prepare_csv_rows` (the record folder);
* `etl/batching/batch_creator.py` — `BatchCreator.create_batches` and
  `BatchCreator.get_batch_count`;
* `etl/pipeline/etl_pipeline.py` — `ETLPipeline.load_progress` and the
  fan-in / checkpoint-update section of `ETLPipeline.run`;
* `etl/extract/query_executor.py` — `QueryExecutor.get_total_count`;
* `etl/tasks/batch_tasks.py` — the aggregation skeleton of
  `process_page_batch_task`.

Database NULL is `Option.none`.  Timestamps (`field_created_at`) are
modelled as `Option Nat`: a non-null timestamp is always truthy in Python
and timestamps are totally ordered, which `Nat` captures.  Text values and
urls are `Option String`; Python truthiness of a string is "non-empty".
Python dicts are modelled as insertion-ordered association lists, Python
sets of strings as `List String` up to membership.  I/O and exceptions are
modelled by passing the outcome of the effect as an explicit argument.
-/

/-- Python truthiness of an optional string: `None` and `""` are falsy. -/
def truthyStr : Option String → Bool
  | none => false
  | some s => !(s == "")

/-- Python `str(x)` for an optional integer column: `str(None) = "None"`. -/
def pyStrN : Option Nat → String
  | none => "None"
  | some n => toString n

/-- Python `repr(x)` for an optional integer column, as used inside `str(tuple)`. -/
def pyReprN : Option Nat → String
  | none => "None"
  | some n => toString n

/-- Python `repr(x)` for an optional string column, as used inside `str(tuple)`
(quote escaping omitted: it does not matter for any property proved here). -/
def pyReprS : Option String → String
  | none => "None"
  | some s => "'" ++ s ++ "'"

/-- Lookup in an insertion-ordered association list (Python `d[k]` / `k in d`). -/
def alGet {α β : Type} [DecidableEq α] (m : List (α × β)) (k : α) : Option β :=
  match m with
  | [] => none
  | (a, b) :: t => if a = k then some b else alGet t k

/-- Python `d[k] = v`: overwrite in place when the key is present, else append. -/
def alSet {α β : Type} [DecidableEq α] (m : List (α × β)) (k : α) (v : β) :
    List (α × β) :=
  match m with
  | [] => [(k, v)]
  | (a, b) :: t => if a = k then (a, v) :: t else (a, b) :: alSet t k v

/-- Python `set.update`: the target set, modelled up to membership as a list,
extended by the members of the second list that are not yet present. -/
def listUnion (old new : List String) : List String :=
  old ++ new.filter (fun x => decide (x ∉ old))

/-- One joined source row, as returned by the paginated query
(`data_processor.py` reads exactly these columns with `row.get`). -/
structure SourceRow where
  study_id : Option Nat
  series_id : Option Nat
  instance_id : Option Nat
  file_path : Option String
  file_url : Option String
  field_value : Option String
  field_created_at : Option Nat
  series_number : Option Nat
  instance_number : Option Nat
deriving DecidableEq, Repr

/-- The composite file key `(study_id, series_id, instance_id, file_path)`
built in `process_batch` line 37. -/
structure FileKey where
  study_id : Option Nat
  series_id : Option Nat
  instance_id : Option Nat
  file_path : Option String
deriving DecidableEq, Repr

/-- Python `str(file_key)` for the 4-tuple key (`process_batch` line 38). -/
def keyStr (k : FileKey) : String :=
  "(" ++ pyReprN k.study_id ++ ", " ++ pyReprN k.series_id ++ ", " ++
    pyReprN k.instance_id ++ ", " ++ pyReprS k.file_path ++ ")"

/-- `file_key = (study_id, series_id, instance_id, file_path)`. -/
def mkFileKey (row : SourceRow) : FileKey :=
  ⟨row.study_id, row.series_id, row.instance_id, row.file_path⟩

/-- The per-file dict stored in `file_data` (`process_batch` lines 46-55). -/
structure FileRecord where
  study_id : Option Nat
  series_id : Option Nat
  instance_id : Option Nat
  series_number : Option Nat
  instance_number : Option Nat
  file_path : Option String
  file_url : Option String
  field_created_at : Option Nat
deriving DecidableEq, Repr

/-- The dict first stored for a key in `file_data` (`process_batch` lines 46-55). -/
def initRecord (row : SourceRow) : FileRecord :=
  { study_id := row.study_id
    series_id := row.series_id
    instance_id := row.instance_id
    series_number := row.series_number
    instance_number := row.instance_number
    file_path := row.file_path
    file_url := row.file_url
    field_created_at := row.field_created_at }

/-- One entry of `report_fields_by_study[study_id]`:
`{'value': field_value, 'created_at': field_created_at}`. -/
structure ReportField where
  value : String
  created_at : Option Nat
deriving DecidableEq, Repr

/-- The guard of `process_batch` lines 68-69:
`field_created_at and (not existing or field_created_at > existing)`.
A null (`none`) timestamp is falsy in Python, a non-null one truthy. -/
def createdAtNewer : Option Nat → Option Nat → Bool
  | none, _ => false
  | some _, none => true
  | some n, some o => decide (o < n)

/-- The three accumulators of `process_batch`: `file_data`,
`report_fields_by_study` and `processed_file_keys_in_batch`. -/
structure BatchState where
  file_data : List (FileKey × FileRecord)
  report_fields_by_study : List (Option Nat × List ReportField)
  processed_file_keys_in_batch : List String
deriving DecidableEq, Repr

/-- Lines 44-55 of `data_processor.py`: `if file_key not in file_data:`
store the initial per-file dict, else leave `file_data` unchanged. -/
def ensureFileData (fd : List (FileKey × FileRecord)) (row : SourceRow) :
    List (FileKey × FileRecord) :=
  match alGet fd (mkFileKey row) with
  | some _ => fd
  | none => fd ++ [(mkFileKey row, initRecord row)]

/-- Lines 57-59 of `data_processor.py`: `if study_id not in
report_fields_by_study:` initialise the study's list to `[]`. -/
def ensureStudy (rp : List (Option Nat × List ReportField)) (study : Option Nat) :
    List (Option Nat × List ReportField) :=
  match alGet rp study with
  | some _ => rp
  | none => rp ++ [(study, [])]

/-- Lines 61-70 of `data_processor.py`: when `field_value` is truthy and not
yet among the study's values, append `{value, created_at}` to the study's
list and, when `field_created_at` is truthy and newer than the file's
current value, bump `file_data[file_key]['field_created_at']`.  (At this
point `file_data` always contains `file_key`; the `none` fallback of the
inner match is unreachable.) -/
def textFold (fd : List (FileKey × FileRecord))
    (rp : List (Option Nat × List ReportField)) (row : SourceRow) :
    List (FileKey × FileRecord) × List (Option Nat × List ReportField) :=
  if truthyStr row.field_value then
    let existing := (alGet rp row.study_id).getD []
    let v := row.field_value.getD ""
    if v ∈ existing.map (fun rv => rv.value) then (fd, rp)
    else
      let rp' := alSet rp row.study_id (existing ++ [⟨v, row.field_created_at⟩])
      let fd' :=
        match alGet fd (mkFileKey row) with
        | some rec =>
          if createdAtNewer row.field_created_at rec.field_created_at then
            alSet fd (mkFileKey row)
              { rec with field_created_at := row.field_created_at }
          else fd
        | none => fd
      (fd', rp')
  else (fd, rp)

/-- The body of the row loop of `DataProcessor.process_batch`
(`data_processor.py` lines 27-72), one row at a time: skip a row whose key
string is in `processed_file_keys`; otherwise run lines 44-70 and append
the key string to `processed_file_keys_in_batch` (line 72, executed for
every non-skipped row). -/
def processRow (processed_file_keys : List String) (st : BatchState)
    (row : SourceRow) : BatchState :=
  if keyStr (mkFileKey row) ∈ processed_file_keys then st
  else
    let fd := ensureFileData st.file_data row
    let rp := ensureStudy st.report_fields_by_study row.study_id
    let step := textFold fd rp row
    { file_data := step.1
      report_fields_by_study := step.2
      processed_file_keys_in_batch :=
        st.processed_file_keys_in_batch ++ [keyStr (mkFileKey row)] }

/-- `DataProcessor.process_batch` (`data_processor.py` lines 13-75): fold the
rows of a batch into `(file_data, report_fields_by_study,
processed_file_keys_in_batch)`. -/
def process_batch (batch : List SourceRow) (processed_file_keys : List String) :
    BatchState :=
  batch.foldl (processRow processed_file_keys) ⟨[], [], []⟩

/-- One CSV row dict built by `DataProcessor.prepare_csv_rows`
(`data_processor.py` lines 99-125). -/
structure CsvRow where
  study_id : Option Nat
  series_number : Option Nat
  instance_number : Option Nat
  instance_id : Option Nat
  file_path : Option String
  field_created_at : Option Nat
  file_url : Option String
  report_value : Option String
  local_file_path : Option String
deriving DecidableEq, Repr

/-- The body of the loop of `DataProcessor.prepare_csv_rows` for one
`(file_key, file_info)` entry (`data_processor.py` lines 99-127):
`report_value` is set only when the study's list is non-empty, and the
local path `os.path.join(output_dir, 'dicom_files', str(instance_id) + ".dcm")`
only when `file_url` is truthy. -/
def buildCsvRow (report_fields_by_study : List (Option Nat × List ReportField))
    (output_dir : String) (p : FileKey × FileRecord) : CsvRow :=
  let file_info := p.2
  let report_values := (alGet report_fields_by_study file_info.study_id).getD []
  { study_id := file_info.study_id
    series_number := file_info.series_number
    instance_number := file_info.instance_number
    instance_id := file_info.instance_id
    file_path := file_info.file_path
    field_created_at := file_info.field_created_at
    file_url := file_info.file_url
    report_value :=
      if report_values = [] then none
      else some (String.intercalate " | "
          ((report_values.filter (fun rv => !(rv.value == ""))).map
            (fun rv => rv.value)))
    local_file_path :=
      if truthyStr file_info.file_url then
        some (output_dir ++ "/dicom_files/" ++ pyStrN file_info.instance_id ++ ".dcm")
      else none }

/-- `DataProcessor.prepare_csv_rows` (`data_processor.py` lines 77-129):
skip entries whose key string is in `processed_file_keys`, build one CSV
row per remaining entry, in `file_data` iteration (= insertion) order. -/
def prepare_csv_rows (file_data : List (FileKey × FileRecord))
    (report_fields_by_study : List (Option Nat × List ReportField))
    (processed_file_keys : List String) (output_dir : String) : List CsvRow :=
  file_data.foldl
    (fun csv_rows p =>
      if keyStr p.1 ∈ processed_file_keys then csv_rows
      else csv_rows ++ [buildCsvRow report_fields_by_study output_dir p])
    []

/-- `BatchCreator.create_batches` (`batch_creator.py` lines 21-32):
`for i in range(0, len(data), batch_size): batches.append(data[i:i+batch_size])`.
With `batch_size = 0` the Python `range` raises `ValueError`; that case is
modelled as producing no batches and is outside every claim (all claims
assume `batch_size > 0`). -/
def create_batches {α : Type} (batch_size : Nat) : List α → List (List α)
  | [] => []
  | x :: t =>
    if hbs : batch_size = 0 then []
    else (x :: t).take batch_size ::
      create_batches batch_size ((x :: t).drop batch_size)
termination_by l => l.length
decreasing_by
  simp only [List.length_drop, List.length_cons]
  omega

/-- `BatchCreator.get_batch_count` (`batch_creator.py` lines 34-40):
`(total_items + self.batch_size - 1) // self.batch_size`. -/
def get_batch_count (batch_size total_items : Nat) : Nat :=
  (total_items + batch_size - 1) / batch_size

/-- The dict returned by `process_batch_task` (`batch_tasks.py` lines 90-119).
The task returns `success = False` exactly when an exception escapes its
body; external effects (database, download, convert) are modelled by taking
each batch's returned dict as given. -/
structure BatchResult where
  success : Bool
  records_processed : Nat
  files_found : Nat
  csv_rows : Nat
  files_downloaded : Nat
  processed_file_keys : List String
  csv_rows_data : List CsvRow
deriving DecidableEq, Repr

/-- The per-page accumulators of `process_page_batch_task`
(`batch_tasks.py` lines 293-298). -/
structure PageAgg where
  total_records : Nat
  total_files : Nat
  total_csv_rows : Nat
  total_downloaded : Nat
  all_processed_keys : List String
  all_csv_rows : List CsvRow
deriving DecidableEq, Repr

/-- One iteration of the batch loop of `process_page_batch_task`
(`batch_tasks.py` lines 300-319): a batch result contributes to the page
accumulators only when its `success` flag is set. -/
def pageStep (st : PageAgg) (r : BatchResult) : PageAgg :=
  if r.success then
    { total_records := st.total_records + r.records_processed
      total_files := st.total_files + r.files_found
      total_csv_rows := st.total_csv_rows + r.csv_rows
      total_downloaded := st.total_downloaded + r.files_downloaded
      all_processed_keys := st.all_processed_keys ++ r.processed_file_keys
      all_csv_rows := st.all_csv_rows ++ r.csv_rows_data }
  else st

/-- The dict returned by `process_page_batch_task` on the non-exceptional
path (`batch_tasks.py` lines 321-331); it has no `errors` field. -/
structure PageTaskResult where
  success : Bool
  page : Nat
  batches_processed : Nat
  records_processed : Nat
  total_files : Nat
  total_csv_rows : Nat
  total_downloaded : Nat
  processed_file_keys : List String
  csv_rows : List CsvRow
deriving DecidableEq, Repr

/-- The aggregation skeleton of `process_page_batch_task`
(`batch_tasks.py` lines 300-331) once the page fetch has succeeded and the
page has been split into batches: `batchResults` is the list of dicts
returned by the sequential `process_batch_task` calls, one per batch.
`list(set(all_processed_keys))` is modelled as order-preserving
deduplication (`List.eraseDups`); Python set order is unspecified and no
claim depends on it. -/
def process_page_batch_task (page : Nat) (batchResults : List BatchResult) :
    PageTaskResult :=
  let st := batchResults.foldl pageStep ⟨0, 0, 0, 0, [], []⟩
  { success := true
    page := page
    batches_processed := batchResults.length
    records_processed := st.total_records
    total_files := st.total_files
    total_csv_rows := st.total_csv_rows
    total_downloaded := st.total_downloaded
    processed_file_keys := st.all_processed_keys.eraseDups
    csv_rows := st.all_csv_rows }

/-- The orchestrator accumulators of `ETLPipeline.run`
(`etl_pipeline.py` lines 238-256): aggregate counters, the pipeline's
`processed_file_keys` set (modelled up to membership as a list) and
`all_csv_rows`. -/
structure FanInState where
  successful_pages : Nat
  total_records : Nat
  total_files : Nat
  total_csv_rows : Nat
  total_downloaded : Nat
  processed_file_keys : List String
  all_csv_rows : List CsvRow
deriving DecidableEq, Repr

/-- One iteration of the fan-in loop of `ETLPipeline.run`
(`etl_pipeline.py` lines 244-256): a page result is merged only when
`page_result.get('success')` is truthy. -/
def fanInStep (st : FanInState) (r : PageTaskResult) : FanInState :=
  if r.success then
    { successful_pages := st.successful_pages + 1
      total_records := st.total_records + r.records_processed
      total_files := st.total_files + r.total_files
      total_csv_rows := st.total_csv_rows + r.total_csv_rows
      total_downloaded := st.total_downloaded + r.total_downloaded
      processed_file_keys := listUnion st.processed_file_keys r.processed_file_keys
      all_csv_rows := st.all_csv_rows ++ r.csv_rows }
  else st

/-- The fan-in loop of `ETLPipeline.run` (`etl_pipeline.py` lines 244-256)
over all received page results. -/
def fanIn (results : List PageTaskResult) (st : FanInState) : FanInState :=
  results.foldl fanInStep st

/-- The progress dict (`etl_pipeline.py` lines 102-107); the default has
`current_page = 0`, `processed_file_count = 0` and no keys. -/
structure Progress where
  current_page : Nat
  processed_file_count : Nat
  processed_file_keys : List String
  csv_rows : List CsvRow
deriving DecidableEq, Repr

/-- The default progress dict returned by `load_progress`
(`etl_pipeline.py` lines 102-107). -/
def defaultProgress : Progress := ⟨0, 0, [], []⟩

/-- The state of the progress file when `load_progress` runs: absent,
present but unreadable or unparsable (any exception inside the `try`), or
valid JSON of a progress dict. -/
inductive ProgressFileState where
  | missing : ProgressFileState
  | corrupt : ProgressFileState
  | valid : Progress → ProgressFileState
deriving DecidableEq, Repr

/-- `ETLPipeline.load_progress` (`etl_pipeline.py` lines 90-107): the
result is the loaded progress dict together with the pipeline's
`processed_file_keys` attribute after the call (`prior` is its value
before the call; it is reassigned only on a successful load).  A missing
file skips the `try`; any exception while opening, parsing or reading the
dict is caught, logged and falls through to the default — the function is
total, so no failure ever escapes to the caller. -/
def load_progress (prior : List String) :
    ProgressFileState → Progress × List String
  | .missing => (defaultProgress, prior)
  | .corrupt => (defaultProgress, prior)
  | .valid p => (p, p.processed_file_keys)

/-- The checkpoint update of `ETLPipeline.run` after fan-in
(`etl_pipeline.py` lines 258-266), composed with `save_progress`
(lines 109-116, which persists the dict unchanged): `processed_file_keys`
and `processed_file_count` come from the merged key set and
`current_page` is set to `total_pages`, with no condition on page
successes. -/
def runFanInAndCheckpoint (results : List PageTaskResult) (st : FanInState)
    (progress : Progress) (total_pages : Nat) : FanInState × Progress :=
  let st' := fanIn results st
  (st',
    { progress with
      processed_file_keys := st'.processed_file_keys
      processed_file_count := st'.processed_file_keys.length
      current_page := total_pages })

/-- Outcome of a database action: a value or a raised exception. -/
inductive DbResult (α : Type) where
  | ok : α → DbResult α
  | err : String → DbResult α
deriving DecidableEq, Repr

/-- `QueryExecutor.get_total_count` (`query_executor.py` lines 25-39).
The argument is the outcome of `cursor.execute(...); cursor.fetchone()`:
an exception, no row (`fetchone` returned `None`), or a row carrying
`total_count`.  The `except Exception` branch logs and returns `0`;
`return result['total_count'] if result else 0` handles the row. -/
def get_total_count (queryOutcome : DbResult (Option Nat)) : DbResult Nat :=
  match queryOutcome with
  | .ok (some n) => .ok n
  | .ok none => .ok 0
  | .err _ => .ok 0

/-- Order on optional timestamps: a null timestamp is below every other. -/
def optLe : Option Nat → Option Nat → Bool
  | none, _ => true
  | some _, none => false
  | some a, some b => decide (a ≤ b)

/-- Relation between a key's lookup in `file_data` before and after more
rows are folded: once present, the record stays present, all fields other
than `field_created_at` are unchanged (first-write-wins) and
`field_created_at` never decreases. -/
def recPreserved : Option FileRecord → Option FileRecord → Prop
  | none, _ => True
  | some _, none => False
  | some r, some r' =>
      r' = { r with field_created_at := r'.field_created_at } ∧
      optLe r.field_created_at r'.field_created_at = true

/-- Maximum of two optional timestamps (null below everything). -/
def optMax : Option Nat → Option Nat → Option Nat
  | none, b => b
  | some a, none => some a
  | some a, some b => some (max a b)

/-- The quantity claim C6 asserts `field_created_at` is advanced to: the
maximum `field_created_at` over all rows of the batch that carry the given
key and are not skipped (their key string is not in `processed_file_keys`).
This definition follows the claim's words, for comparison with what
`process_batch` computes. -/
def claimMaxCreatedAt (batch : List SourceRow) (processed_file_keys : List String)
    (k : FileKey) : Option Nat :=
  (batch.filter (fun row =>
      decide (mkFileKey row = k) &&
      !(decide (keyStr (mkFileKey row) ∈ processed_file_keys)))).foldl
    (fun acc row => optMax acc row.field_created_at) none

/-- Invariant of each `report_fields_by_study` entry built by
`process_batch`: the study's text values are pairwise distinct (kept in
first-seen order by construction, since entries are only ever appended)
and all non-empty (truthy). -/
def goodStudyEntry (e : Option Nat × List ReportField) : Prop :=
  (e.2.map (fun rv => rv.value)).Nodup ∧ ∀ rv ∈ e.2, rv.value ≠ ""

/-- Sample row: study 1, series 1, instance 1, text value "a" at time 1. -/
def sRowA : SourceRow :=
  ⟨some 1, some 1, some 1, some "p", some "u", some "a", some 1, some 1, some 1⟩

/-- Sample row: same study and series as `sRowA` but instance 2 and a
distinct text value "b" at time 2. -/
def sRowB : SourceRow :=
  ⟨some 1, some 1, some 2, some "q", some "u2", some "b", some 2, some 1, some 2⟩

/-- Sample row: the same file key as `sRowA`, carrying the duplicate text
value "a" but a later timestamp 5. -/
def sRowDup : SourceRow :=
  ⟨some 1, some 1, some 1, some "p", some "u", some "a", some 5, some 1, some 1⟩

/-- Sample row: the same file key as `sRowA` but a null text value. -/
def sRowNull : SourceRow :=
  ⟨some 1, some 1, some 1, some "p", some "u", none, some 1, some 1, some 1⟩

/-! ### Generic lemmas about the association-list and fold helpers -/

theorem alGet_append_left {α β : Type} [DecidableEq α] {m : List (α × β)}
    {k : α} {v : β} (m' : List (α × β)) (h : alGet m k = some v) :
    alGet (m ++ m') k = some v := by
  induction m with
  | nil => simp [alGet] at h
  | cons p t ih =>
    obtain ⟨a, b⟩ := p
    by_cases hak : a = k
    · simp [alGet, hak] at h ⊢
      exact h
    · simp [alGet, hak] at h ⊢
      exact ih h

theorem alGet_mem {α β : Type} [DecidableEq α] {m : List (α × β)} {k : α}
    {v : β} (h : alGet m k = some v) : (k, v) ∈ m := by
  induction m with
  | nil => simp [alGet] at h
  | cons p t ih =>
    obtain ⟨a, b⟩ := p
    by_cases hak : a = k
    · simp [alGet, hak] at h
      subst hak h
      exact List.mem_cons_self _ _
    · simp [alGet, hak] at h
      exact List.mem_cons_of_mem _ (ih h)

theorem alSet_mem {α β : Type} [DecidableEq α] {m : List (α × β)} {k : α}
    {v : β} : ∀ p ∈ alSet m k v, p = (k, v) ∨ p ∈ m := by
  induction m with
  | nil =>
    intro p hp
    simp [alSet] at hp
    exact Or.inl hp
  | cons q t ih =>
    obtain ⟨a, b⟩ := q
    intro p hp
    by_cases hak : a = k
    · subst hak
      simp [alSet] at hp
      rcases hp with h | h
      · exact Or.inl h
      · exact Or.inr (List.mem_cons_of_mem _ h)
    · simp [alSet, hak] at hp
      rcases hp with h | h
      · exact Or.inr (by simp [h])
      · rcases ih p h with h1 | h1
        · exact Or.inl h1
        · exact Or.inr (List.mem_cons_of_mem _ h1)

theorem alGet_alSet_self {α β : Type} [DecidableEq α] (m : List (α × β))
    (k : α) (v : β) : alGet (alSet m k v) k = some v := by
  induction m with
  | nil => simp [alSet, alGet]
  | cons q t ih =>
    obtain ⟨a, b⟩ := q
    by_cases hak : a = k
    · simp [alSet, alGet, hak]
    · simp [alSet, alGet, hak]
      exact ih

theorem alGet_alSet_ne {α β : Type} [DecidableEq α] (m : List (α × β))
    {k k' : α} (v : β) (h : k ≠ k') : alGet (alSet m k v) k' = alGet m k' := by
  induction m with
  | nil => simp [alSet, alGet, h]
  | cons q t ih =>
    obtain ⟨a, b⟩ := q
    by_cases hak : a = k
    · subst hak
      simp [alSet, alGet, h]
    · simp [alSet, alGet, hak]
      by_cases hak' : a = k'
      · simp [hak']
      · simp [hak', ih]

theorem listUnion_mem {x : String} {a b : List String} :
    x ∈ listUnion a b ↔ x ∈ a ∨ x ∈ b := by
  simp only [listUnion, List.mem_append, List.mem_filter, decide_eq_true_eq]
  constructor
  · rintro (h | ⟨h, -⟩)
    · exact Or.inl h
    · exact Or.inr h
  · rintro (h | h)
    · exact Or.inl h
    · by_cases ha : x ∈ a
      · exact Or.inl ha
      · exact Or.inr ⟨h, ha⟩

theorem foldl_invariant {α β : Type} (f : β → α → β) (P : β → Prop) :
    ∀ (l : List α) (st : β), P st → (∀ b a, P b → P (f b a)) →
      P (l.foldl f st) := by
  intro l
  induction l with
  | nil => intro st h0 _; exact h0
  | cons x t ih => intro st h0 hstep; exact ih _ (hstep _ _ h0) hstep

theorem foldl_rel {α β : Type} (f : β → α → β) (R : β → β → Prop)
    (hrefl : ∀ b, R b b) (htrans : ∀ a b c, R a b → R b c → R a c)
    (hstep : ∀ b a, R b (f b a)) : ∀ (l : List α) (st : β), R st (l.foldl f st) := by
  intro l
  induction l with
  | nil => intro st; exact hrefl st
  | cons x t ih => intro st; exact htrans _ _ _ (hstep st x) (ih (f st x))

/-! ### Lemmas about one step of the fold -/

theorem processRow_skip {K : List String} {row : SourceRow} (st : BatchState)
    (h : keyStr (mkFileKey row) ∈ K) : processRow K st row = st := by
  simp [processRow, h]

theorem processRow_not_skip {K : List String} {row : SourceRow} (st : BatchState)
    (h : keyStr (mkFileKey row) ∉ K) :
    processRow K st row =
      ⟨(textFold (ensureFileData st.file_data row)
          (ensureStudy st.report_fields_by_study row.study_id) row).1,
        (textFold (ensureFileData st.file_data row)
          (ensureStudy st.report_fields_by_study row.study_id) row).2,
        st.processed_file_keys_in_batch ++ [keyStr (mkFileKey row)]⟩ := by
  simp [processRow, h]

theorem ensureFileData_mem {fd : List (FileKey × FileRecord)} {row : SourceRow} :
    ∀ p ∈ ensureFileData fd row, p ∈ fd ∨ p.1 = mkFileKey row := by
  intro p hp
  unfold ensureFileData at hp
  cases h : alGet fd (mkFileKey row) with
  | some r => rw [h] at hp; exact Or.inl hp
  | none =>
    rw [h] at hp
    rcases List.mem_append.mp hp with h1 | h1
    · exact Or.inl h1
    · right
      simp at h1
      rw [h1]

theorem textFold_fst_mem {fd : List (FileKey × FileRecord)}
    {rp : List (Option Nat × List ReportField)} {row : SourceRow} :
    ∀ p ∈ (textFold fd rp row).1, p ∈ fd ∨ p.1 = mkFileKey row := by
  intro p hp
  unfold textFold at hp
  by_cases ht : truthyStr row.field_value
  · simp only [ht, if_true] at hp
    set existing := (alGet rp row.study_id).getD [] with hex
    by_cases hv : row.field_value.getD "" ∈ existing.map (fun rv => rv.value)
    · rw [if_pos hv] at hp
      exact Or.inl hp
    · rw [if_neg hv] at hp
      simp only at hp
      cases hrec : alGet fd (mkFileKey row) with
      | none => rw [hrec] at hp; exact Or.inl hp
      | some rec =>
        rw [hrec] at hp
        by_cases hnew : createdAtNewer row.field_created_at rec.field_created_at
        · simp only [hnew, if_true] at hp
          rcases alSet_mem p hp with h1 | h1
          · right; rw [h1]
          · exact Or.inl h1
        · simp only [hnew, if_false] at hp
          exact Or.inl hp
  · simp only [ht, if_false] at hp
    exact Or.inl hp

theorem processRow_file_data_good {K : List String} {st : BatchState}
    (row : SourceRow) (h : ∀ p ∈ st.file_data, keyStr p.1 ∉ K) :
    ∀ p ∈ (processRow K st row).file_data, keyStr p.1 ∉ K := by
  by_cases hk : keyStr (mkFileKey row) ∈ K
  · rw [processRow_skip st hk]
    exact h
  · rw [processRow_not_skip st hk]
    intro p hp
    rcases textFold_fst_mem p hp with h1 | h1
    · rcases ensureFileData_mem p h1 with h2 | h2
      · exact h p h2
      · rw [h2]; exact hk
    · rw [h1]; exact hk

theorem processRow_newkeys_mono {K : List String} {st : BatchState}
    (row : SourceRow) {x : String} (h : x ∈ st.processed_file_keys_in_batch) :
    x ∈ (processRow K st row).processed_file_keys_in_batch := by
  by_cases hk : keyStr (mkFileKey row) ∈ K
  · rw [processRow_skip st hk]; exact h
  · rw [processRow_not_skip st hk]
    exact List.mem_append_left _ h

theorem processRow_newkeys_self {K : List String} (st : BatchState)
    (row : SourceRow) (hk : keyStr (mkFileKey row) ∉ K) :
    keyStr (mkFileKey row) ∈ (processRow K st row).processed_file_keys_in_batch := by
  rw [processRow_not_skip st hk]
  simp

theorem foldl_newkeys_mono {K : List String} {x : String} :
    ∀ (l : List SourceRow) (st : BatchState),
      x ∈ st.processed_file_keys_in_batch →
      x ∈ (l.foldl (processRow K) st).processed_file_keys_in_batch := by
  intro l st h
  exact foldl_invariant (processRow K)
    (fun st => x ∈ st.processed_file_keys_in_batch) l st h
    (fun b a hb => processRow_newkeys_mono a hb)

theorem mem_newkeys {K : List String} :
    ∀ (l : List SourceRow) (st : BatchState) (row : SourceRow), row ∈ l →
      keyStr (mkFileKey row) ∈ K ∨
      keyStr (mkFileKey row) ∈ (l.foldl (processRow K) st).processed_file_keys_in_batch := by
  intro l
  induction l with
  | nil => intro st row h; exact absurd h (List.not_mem_nil _)
  | cons x t ih =>
    intro st row h
    rcases List.mem_cons.mp h with h1 | h1
    · subst h1
      by_cases hk : keyStr (mkFileKey row) ∈ K
      · exact Or.inl hk
      · right
        simp only [List.foldl_cons]
        exact foldl_newkeys_mono t _ (processRow_newkeys_self st row hk)
    · simp only [List.foldl_cons]
      exact ih _ row h1

theorem foldl_all_skipped {K : List String} :
    ∀ (l : List SourceRow) (st : BatchState),
      (∀ row ∈ l, keyStr (mkFileKey row) ∈ K) →
      l.foldl (processRow K) st = st := by
  intro l
  induction l with
  | nil => intro st _; rfl
  | cons x t ih =>
    intro st h
    simp only [List.foldl_cons]
    rw [processRow_skip st (h x (List.mem_cons_self _ _))]
    exact ih st (fun row hr => h row (List.mem_cons_of_mem _ hr))

theorem foldl_newkeys_eq {K : List String} :
    ∀ (l : List SourceRow) (st : BatchState),
      (l.foldl (processRow K) st).processed_file_keys_in_batch =
        st.processed_file_keys_in_batch ++
          (l.filter (fun row => !(decide (keyStr (mkFileKey row) ∈ K)))).map
            (fun row => keyStr (mkFileKey row)) := by
  intro l
  induction l with
  | nil => intro st; simp
  | cons x t ih =>
    intro st
    simp only [List.foldl_cons]
    by_cases hk : keyStr (mkFileKey x) ∈ K
    · rw [processRow_skip st hk, ih]
      simp [List.filter_cons, hk]
    · rw [ih, processRow_not_skip st hk]
      simp [List.filter_cons, hk]

/-- C1: for every batch `B` and key set `K`, `process_batch` never inserts
into `file_data` a key whose string form is in `K`; and running
`process_batch` again on the same batch with `K` extended by the first
call's returned key list yields an empty `file_data`. -/
theorem c1_fold_idempotent (B : List SourceRow) (K : List String) :
    ((process_batch B K).file_data.all
        (fun p => !(decide (keyStr p.1 ∈ K))) = true) ∧
    (process_batch B
        (K ++ (process_batch B K).processed_file_keys_in_batch)).file_data = [] := by
  constructor
  · rw [List.all_eq_true]
    intro p hp
    have hinv := foldl_invariant (processRow K)
      (fun st => ∀ p ∈ st.file_data, keyStr p.1 ∉ K) B ⟨[], [], []⟩
      (by intro p hp; simp at hp)
      (fun b a hb => processRow_file_data_good a hb)
    have h2 := hinv p hp
    simpa using h2
  · have hall : ∀ row ∈ B,
        keyStr (mkFileKey row) ∈ K ++ (process_batch B K).processed_file_keys_in_batch := by
      intro row hr
      rcases mem_newkeys (K := K) B ⟨[], [], []⟩ row hr with h | h
      · exact List.mem_append_left _ h
      · exact List.mem_append_right _ h
    have hz : process_batch B
        (K ++ (process_batch B K).processed_file_keys_in_batch) = ⟨[], [], []⟩ :=
      foldl_all_skipped B ⟨[], [], []⟩ hall
    rw [hz]

/-- C5 fails on the code: a batch containing the same file key in two rows
(here `sRowA` and `sRowDup`, which share the key `(1, 1, 1, 'p')`) yields
that key's string form twice in the returned key list, not "exactly once
per distinct key"; the batch has exactly one distinct key. -/
theorem c5_counterexample :
    (process_batch [sRowA, sRowDup] []).processed_file_keys_in_batch.count
        "(1, 1, 1, 'p')" = 2 ∧
    (process_batch [sRowA, sRowDup] []).file_data.length = 1 := by decide

/-- C5 amended: the returned key list contains the key string of every
non-skipped row, once per row in batch order (so a key occurring in
several rows of the batch appears once per such row, not once per
distinct key). -/
theorem c5_new_keys_per_row (B : List SourceRow) (K : List String) :
    (process_batch B K).processed_file_keys_in_batch =
      (B.filter (fun row => !(decide (keyStr (mkFileKey row) ∈ K)))).map
        (fun row => keyStr (mkFileKey row)) := by
  unfold process_batch
  rw [foldl_newkeys_eq]
  simp

/-! ### First-write-wins and monotone timestamps (C6) -/

theorem recPreserved_refl (x : Option FileRecord) : recPreserved x x := by
  cases x with
  | none => trivial
  | some r =>
    refine ⟨rfl, ?_⟩
    cases r.field_created_at <;> simp [optLe]

theorem optLe_trans {a b c : Option Nat} (h1 : optLe a b = true)
    (h2 : optLe b c = true) : optLe a c = true := by
  cases a <;> cases b <;> cases c <;> simp [optLe] at h1 h2 ⊢ <;> omega

theorem recPreserved_trans (a b c : Option FileRecord) (h1 : recPreserved a b)
    (h2 : recPreserved b c) : recPreserved a c := by
  cases a with
  | none => trivial
  | some r =>
    cases b with
    | none => exact absurd h1 (by simp [recPreserved])
    | some r' =>
      cases c with
      | none => exact absurd h2 (by simp [recPreserved])
      | some r'' =>
        obtain ⟨hs1, hl1⟩ := h1
        obtain ⟨hs2, hl2⟩ := h2
        constructor
        · conv_lhs => rw [hs2, hs1]
        · exact optLe_trans hl1 hl2

theorem optLe_of_newer {a b : Option Nat} (h : createdAtNewer a b = true) :
    optLe b a = true := by
  cases a <;> cases b <;> simp [createdAtNewer, optLe] at h ⊢ <;> omega

theorem ensureFileData_alGet (fd : List (FileKey × FileRecord))
    (row : SourceRow) (k : FileKey) :
    recPreserved (alGet fd k) (alGet (ensureFileData fd row) k) := by
  unfold ensureFileData
  cases h : alGet fd (mkFileKey row) with
  | some r => exact recPreserved_refl _
  | none =>
    cases h2 : alGet fd k with
    | none => trivial
    | some r =>
      rw [alGet_append_left _ h2]
      exact recPreserved_refl _

theorem textFold_alGet (fd : List (FileKey × FileRecord))
    (rp : List (Option Nat × List ReportField)) (row : SourceRow) (k : FileKey) :
    recPreserved (alGet fd k) (alGet (textFold fd rp row).1 k) := by
  unfold textFold
  by_cases ht : truthyStr row.field_value
  · simp only [ht, if_true]
    by_cases hv : row.field_value.getD "" ∈
        ((alGet rp row.study_id).getD []).map (fun rv => rv.value)
    · rw [if_pos hv]
      exact recPreserved_refl _
    · rw [if_neg hv]
      simp only
      cases hrec : alGet fd (mkFileKey row) with
      | none => exact recPreserved_refl _
      | some rec =>
        by_cases hnew : createdAtNewer row.field_created_at rec.field_created_at
        · simp only [hnew, if_true]
          by_cases hkk : mkFileKey row = k
          · subst hkk
            rw [hrec, alGet_alSet_self]
            exact ⟨rfl, optLe_of_newer hnew⟩
          · rw [alGet_alSet_ne _ _ hkk]
            exact recPreserved_refl _
        · simp only [hnew, if_false]
          exact recPreserved_refl _
  · simp only [ht, if_false]
    exact recPreserved_refl _

theorem processRow_recPreserved (K : List String) (st : BatchState)
    (row : SourceRow) (k : FileKey) :
    recPreserved (alGet st.file_data k) (alGet (processRow K st row).file_data k) := by
  by_cases hk : keyStr (mkFileKey row) ∈ K
  · rw [processRow_skip st hk]
    exact recPreserved_refl _
  · rw [processRow_not_skip st hk]
    exact recPreserved_trans _ _ _
      (ensureFileData_alGet st.file_data row k)
      (textFold_alGet (ensureFileData st.file_data row)
        (ensureStudy st.report_fields_by_study row.study_id) row k)

/-- C6 amended: once a key's record exists in `file_data` (after folding any
prefix `b1` of the batch), folding further rows `b2` keeps the record
present, never changes its static fields (ids, numbers, path, url:
first-write-wins) and never decreases `field_created_at`.  The original
claim's stronger statement — that `field_created_at` reaches the maximum
over all non-skipped rows of the key — is refuted by
`c6_counterexample`: a row whose text value duplicates the study aggregate
does not advance the timestamp. -/
theorem c6_first_write_wins_monotone (K : List String) (b1 b2 : List SourceRow)
    (k : FileKey) :
    recPreserved (alGet (process_batch b1 K).file_data k)
      (alGet (process_batch (b1 ++ b2) K).file_data k) := by
  have hsplit : process_batch (b1 ++ b2) K =
      b2.foldl (processRow K) (process_batch b1 K) := by
    unfold process_batch
    rw [List.foldl_append]
  rw [hsplit]
  exact foldl_rel (processRow K)
    (fun a b => recPreserved (alGet a.file_data k) (alGet b.file_data k))
    (fun b => recPreserved_refl _)
    (fun a b c h1 h2 => recPreserved_trans _ _ _ h1 h2)
    (fun b a => processRow_recPreserved K b a k)
    b2 (process_batch b1 K)

/-- C6 fails as stated: in the batch `[sRowA, sRowDup]` with no
pre-processed keys, both rows of key `(1, 1, 1, 'p')` are non-skipped and
the maximum observed `field_created_at` is 5, yet the final record keeps
`field_created_at = 1` — the duplicate text value "a" of `sRowDup` is not
appended to the study aggregate, so its newer timestamp is ignored. -/
theorem c6_counterexample :
    claimMaxCreatedAt [sRowA, sRowDup] [] (mkFileKey sRowA) = some 5 ∧
    (alGet (process_batch [sRowA, sRowDup] []).file_data (mkFileKey sRowA)).map
      (fun r => r.field_created_at) = some (some 1) ∧
    (some 5 : Option Nat) ≠ some 1 := by decide

/-! ### CSV row preparation and study-level aggregation (C2) -/

theorem nodup_append_singleton {l : List String} {v : String}
    (h1 : l.Nodup) (h2 : v ∉ l) : (l ++ [v]).Nodup := by
  simp [List.nodup_append, h1, h2]

theorem truthy_getD_ne {o : Option String} (h : truthyStr o = true) :
    o.getD "" ≠ "" := by
  cases o with
  | none => simp [truthyStr] at h
  | some s =>
    simp [truthyStr] at h
    simpa using h

theorem goodRP_ensureStudy {rp : List (Option Nat × List ReportField)}
    (s : Option Nat) (h : ∀ e ∈ rp, goodStudyEntry e) :
    ∀ e ∈ ensureStudy rp s, goodStudyEntry e := by
  intro e he
  unfold ensureStudy at he
  cases hg : alGet rp s with
  | some l => rw [hg] at he; exact h e he
  | none =>
    rw [hg] at he
    rcases List.mem_append.mp he with h1 | h1
    · exact h e h1
    · simp at h1
      rw [h1]
      exact ⟨List.nodup_nil, by intro rv hrv; simp at hrv⟩

theorem goodRP_textFold (fd : List (FileKey × FileRecord))
    {rp : List (Option Nat × List ReportField)} (row : SourceRow)
    (h : ∀ e ∈ rp, goodStudyEntry e) :
    ∀ e ∈ (textFold fd rp row).2, goodStudyEntry e := by
  intro e he
  unfold textFold at he
  by_cases ht : truthyStr row.field_value
  · simp only [ht, if_true] at he
    by_cases hv : row.field_value.getD "" ∈
        ((alGet rp row.study_id).getD []).map (fun rv => rv.value)
    · rw [if_pos hv] at he
      exact h e he
    · rw [if_neg hv] at he
      simp only at he
      rcases alSet_mem e he with h1 | h1
      · have hex : ((((alGet rp row.study_id).getD []).map
            (fun rv => rv.value)).Nodup) ∧
            (∀ rv ∈ (alGet rp row.study_id).getD [], rv.value ≠ "") := by
          cases hg : alGet rp row.study_id with
          | none => simp
          | some l =>
            have := h (row.study_id, l) (alGet_mem hg)
            simpa [goodStudyEntry, hg] using this
        rw [h1]
        constructor
        · simp only [List.map_append, List.map_cons, List.map_nil]
          exact nodup_append_singleton hex.1 hv
        · intro rv hrv
          rcases List.mem_append.mp hrv with h2 | h2
          · exact hex.2 rv h2
          · simp at h2
            rw [h2]
            exact truthy_getD_ne ht
      · exact h e h1
  · simp only [ht, if_false] at he
    exact h e he

theorem processRow_goodRP {K : List String} {st : BatchState} (row : SourceRow)
    (h : ∀ e ∈ st.report_fields_by_study, goodStudyEntry e) :
    ∀ e ∈ (processRow K st row).report_fields_by_study, goodStudyEntry e := by
  by_cases hk : keyStr (mkFileKey row) ∈ K
  · rw [processRow_skip st hk]
    exact h
  · rw [processRow_not_skip st hk]
    exact goodRP_textFold _ row (goodRP_ensureStudy row.study_id h)

theorem prepare_foldl_eq (rm : List (Option Nat × List ReportField))
    (K : List String) (out : String) :
    ∀ (fd : List (FileKey × FileRecord)) (acc : List CsvRow),
      fd.foldl
        (fun csv_rows p =>
          if keyStr p.1 ∈ K then csv_rows
          else csv_rows ++ [buildCsvRow rm out p]) acc =
      acc ++ (fd.filter (fun p => !(decide (keyStr p.1 ∈ K)))).map
        (buildCsvRow rm out) := by
  intro fd
  induction fd with
  | nil => intro acc; simp
  | cons p t ih =>
    intro acc
    simp only [List.foldl_cons]
    by_cases hk : keyStr p.1 ∈ K
    · rw [if_pos hk, ih]
      simp [List.filter_cons, hk]
    · rw [if_neg hk, ih]
      simp [List.filter_cons, hk]

/-- C2 amended: `prepare_csv_rows` builds exactly one row per entry of
`file_data` whose key string is not in `processed_file_keys`, in map
order (first conjunct); a row's `report_value` is the `" | "`-join of its
study's aggregated text values when that list is non-empty and null
(`none`) when the study has no aggregated text values — not the empty
join `""` — and its local staging path is
`{output_dir}/dicom_files/{instance_id}.dcm` exactly when `file_url` is
truthy, else null (second conjunct); and in every aggregate built by
`process_batch` each study's text values are pairwise distinct, kept in
first-seen (append) order, and non-null (third conjunct), so the joined
values are the study's distinct non-null text values in first-seen order,
identical for every artifact row of that study. -/
theorem c2_prepare_rows (fd : List (FileKey × FileRecord))
    (rm : List (Option Nat × List ReportField)) (K : List String)
    (out : String) (B : List SourceRow) (K₀ : List String) :
    (prepare_csv_rows fd rm K out =
      (fd.filter (fun p => !(decide (keyStr p.1 ∈ K)))).map (buildCsvRow rm out)) ∧
    (∀ p : FileKey × FileRecord,
      ((buildCsvRow rm out p).report_value =
        if (alGet rm p.2.study_id).getD [] = [] then none
        else some (String.intercalate " | "
            ((((alGet rm p.2.study_id).getD []).filter
              (fun rv => !(rv.value == ""))).map (fun rv => rv.value)))) ∧
      ((buildCsvRow rm out p).local_file_path =
        if truthyStr p.2.file_url then
          some (out ++ "/dicom_files/" ++ pyStrN p.2.instance_id ++ ".dcm")
        else none)) ∧
    ((process_batch B K₀).report_fields_by_study.all
      (fun e => decide ((e.2.map (fun rv => rv.value)).Nodup) &&
        e.2.all (fun rv => !(rv.value == ""))) = true) := by
  refine ⟨?_, ?_, ?_⟩
  · unfold prepare_csv_rows
    rw [prepare_foldl_eq]
    simp
  · intro p
    exact ⟨rfl, rfl⟩
  · have hinv := foldl_invariant (processRow K₀)
      (fun st => ∀ e ∈ st.report_fields_by_study, goodStudyEntry e) B ⟨[], [], []⟩
      (by intro e he; simp at he)
      (fun b a hb => processRow_goodRP a hb)
    rw [List.all_eq_true]
    intro e he
    have hg := hinv e he
    obtain ⟨h1, h2⟩ := hg
    rw [Bool.and_eq_true]
    constructor
    · exact decide_eq_true h1
    · rw [List.all_eq_true]
      intro rv hrv
      simpa using h2 rv hrv

/-- C2 fails in one corner as stated: when an artifact's study has no
non-null text values (batch `[sRowNull]`), the produced row carries
`report_value = none` (Python `None`), whereas the claim's unconditional
"`\" | \"`-join of the parent's distinct non-null text values" would be
the empty join `""`. -/
theorem c2_counterexample :
    ((prepare_csv_rows (process_batch [sRowNull] []).file_data
        (process_batch [sRowNull] []).report_fields_by_study [] "/tmp").map
      (fun r => r.report_value) = [none]) ∧
    String.intercalate " | " ([] : List String) = "" ∧
    (none : Option String) ≠ some "" := by decide

/-! ### Fan-in, checkpoint, progress loading, count query, page task -/

theorem fanInStep_fail {st : FanInState} {r : PageTaskResult}
    (h : r.success = false) : fanInStep st r = st := by
  simp [fanInStep, h]

theorem fanIn_filter :
    ∀ (results : List PageTaskResult) (st : FanInState),
      fanIn results st = fanIn (results.filter (fun r => r.success)) st := by
  intro results
  induction results with
  | nil => intro st; rfl
  | cons r t ih =>
    intro st
    by_cases hr : r.success
    · simp only [fanIn, List.foldl_cons, List.filter_cons, hr, if_true]
      exact ih (fanInStep st r)
    · have hf : r.success = false := by simpa using hr
      simp only [fanIn, List.foldl_cons, List.filter_cons, hf]
      rw [fanInStep_fail hf]
      simpa using ih st

theorem fanIn_keys_mem :
    ∀ (results : List PageTaskResult) (st : FanInState) (x : String),
      x ∈ (fanIn results st).processed_file_keys →
      x ∈ st.processed_file_keys ∨
        ∃ r ∈ results, r.success = true ∧ x ∈ r.processed_file_keys := by
  intro results
  induction results with
  | nil => intro st x h; exact Or.inl h
  | cons r t ih =>
    intro st x h
    simp only [fanIn, List.foldl_cons] at h
    rcases ih (fanInStep st r) x h with h1 | ⟨q, hq, hs, hx⟩
    · by_cases hr : r.success
      · simp only [fanInStep, hr, if_true] at h1
        rcases listUnion_mem.mp h1 with h2 | h2
        · exact Or.inl h2
        · exact Or.inr ⟨r, List.mem_cons_self _ _, hr, h2⟩
      · rw [fanInStep_fail (by simpa using hr)] at h1
        exact Or.inl h1
    · exact Or.inr ⟨q, List.mem_cons_of_mem _ hq, hs, hx⟩

theorem fanIn_rows_mem :
    ∀ (results : List PageTaskResult) (st : FanInState) (row : CsvRow),
      row ∈ (fanIn results st).all_csv_rows →
      row ∈ st.all_csv_rows ∨
        ∃ r ∈ results, r.success = true ∧ row ∈ r.csv_rows := by
  intro results
  induction results with
  | nil => intro st row h; exact Or.inl h
  | cons r t ih =>
    intro st row h
    simp only [fanIn, List.foldl_cons] at h
    rcases ih (fanInStep st r) row h with h1 | ⟨q, hq, hs, hx⟩
    · by_cases hr : r.success
      · simp only [fanInStep, hr, if_true] at h1
        rcases List.mem_append.mp h1 with h2 | h2
        · exact Or.inl h2
        · exact Or.inr ⟨r, List.mem_cons_self _ _, hr, h2⟩
      · rw [fanInStep_fail (by simpa using hr)] at h1
        exact Or.inl h1
    · exact Or.inr ⟨q, List.mem_cons_of_mem _ hq, hs, hx⟩

/-- C3: the fan-in loop of `ETLPipeline.run` merges only page results whose
`success` flag is true — dropping the failed results leaves the merged
state unchanged (first conjunct), every key in the merged ledger was
already there or comes from a successful result (second conjunct), and
every merged CSV row likewise (third conjunct); in particular a result
with `success = false` contributes no keys and no rows. -/
theorem c3_fanin_success_only (results : List PageTaskResult) (st : FanInState) :
    (fanIn results st = fanIn (results.filter (fun r => r.success)) st) ∧
    ((fanIn results st).processed_file_keys.all
      (fun x => decide (x ∈ st.processed_file_keys) ||
        results.any (fun r => r.success && decide (x ∈ r.processed_file_keys)))
      = true) ∧
    ((fanIn results st).all_csv_rows.all
      (fun row => decide (row ∈ st.all_csv_rows) ||
        results.any (fun r => r.success && decide (row ∈ r.csv_rows)))
      = true) := by
  refine ⟨fanIn_filter results st, ?_, ?_⟩
  · rw [List.all_eq_true]
    intro x hx
    rcases fanIn_keys_mem results st x hx with h | ⟨r, hr, hs, hxr⟩
    · simp [h]
    · rw [Bool.or_eq_true]
      right
      rw [List.any_eq_true]
      exact ⟨r, hr, by simp [hs, hxr]⟩
  · rw [List.all_eq_true]
    intro row hrow
    rcases fanIn_rows_mem results st row hrow with h | ⟨r, hr, hs, hxr⟩
    · simp [h]
    · rw [Bool.or_eq_true]
      right
      rw [List.any_eq_true]
      exact ⟨r, hr, by simp [hs, hxr]⟩

/-- C4: after fan-in, the checkpoint written by `ETLPipeline.run` has
`current_page = total_pages` for every list of page results — including
lists containing results with `success = false` — so failed pages are not
re-dispatched on the next run; the persisted key set is exactly the merged
ledger. -/
theorem c4_resume_page_unconditional (results : List PageTaskResult)
    (st : FanInState) (progress : Progress) (total_pages : Nat) :
    ((runFanInAndCheckpoint results st progress total_pages).2).current_page
        = total_pages ∧
    ((runFanInAndCheckpoint results st progress total_pages).2).processed_file_keys
        = (fanIn results st).processed_file_keys :=
  ⟨rfl, rfl⟩

/-- C8: `load_progress` is a total function of the progress-file state — no
failure escapes to the caller — and on a missing or corrupt (unreadable or
unparsable) file it returns the default checkpoint with resume page 0 and
no processed keys, leaving the pipeline's key set unchanged; only a valid
file yields its stored progress. -/
theorem c8_load_progress_default (prior : List String) (p : Progress) :
    load_progress prior .missing = (defaultProgress, prior) ∧
    load_progress prior .corrupt = (defaultProgress, prior) ∧
    load_progress prior (.valid p) = (p, p.processed_file_keys) ∧
    defaultProgress.current_page = 0 ∧
    defaultProgress.processed_file_keys = ([] : List String) :=
  ⟨rfl, rfl, rfl, rfl, rfl⟩

/-- C9 fails on the code: `get_total_count` does not propagate a data-store
error — the `except Exception` branch catches it, logs it and returns the
default count 0 (`.ok 0`), which is not the propagated error. -/
theorem c9_counterexample :
    get_total_count (.err "connection refused") = .ok 0 ∧
    (DbResult.ok 0 : DbResult Nat) ≠ .err "connection refused" := by
  decide

/-- C9 amended: on a data-store error while executing the count query,
`get_total_count` catches the exception and returns the default value 0 to
its caller (a single attempt, no retry — the function performs exactly one
query, whose outcome is its argument); it also returns 0 when the query
yields no row. -/
theorem c9_count_error_returns_zero (e : String) :
    get_total_count (.err e) = .ok 0 ∧ get_total_count (.ok none) = .ok 0 :=
  ⟨rfl, rfl⟩

theorem pageStep_fail {st : PageAgg} {r : BatchResult} (h : r.success = false) :
    pageStep st r = st := by
  simp [pageStep, h]

theorem pageFold_filter :
    ∀ (rs : List BatchResult) (st : PageAgg),
      rs.foldl pageStep st = (rs.filter (fun r => r.success)).foldl pageStep st := by
  intro rs
  induction rs with
  | nil => intro st; rfl
  | cons r t ih =>
    intro st
    by_cases hr : r.success
    · simp only [List.foldl_cons, List.filter_cons, hr, if_true]
      exact ih (pageStep st r)
    · have hf : r.success = false := by simpa using hr
      simp only [List.foldl_cons, List.filter_cons, hf]
      rw [pageStep_fail hf]
      simpa using ih st

theorem pageFold_all_fail :
    ∀ (rs : List BatchResult) (st : PageAgg),
      (∀ r ∈ rs, r.success = false) → rs.foldl pageStep st = st := by
  intro rs
  induction rs with
  | nil => intro st _; rfl
  | cons r t ih =>
    intro st h
    simp only [List.foldl_cons]
    rw [pageStep_fail (h r (List.mem_cons_self _ _))]
    exact ih st (fun q hq => h q (List.mem_cons_of_mem _ hq))

/-- C10: `process_page_batch_task` returns `success = true` whenever the
page fetch succeeded, regardless of the inner batch results (first
conjunct); batch results with `success = false` contribute nothing to the
counters, key list or row list — only `batches_processed` counts them
(second conjunct); and when every inner `process_batch_task` result has
`success = false` the page result is the all-empty success record, whose
type (`PageTaskResult`) carries no `errors` field at all (third
conjunct). -/
theorem c10_page_swallows_batch_failures (page : Nat)
    (results : List BatchResult) :
    ((process_page_batch_task page results).success = true) ∧
    (process_page_batch_task page results =
      { process_page_batch_task page (results.filter (fun r => r.success)) with
        batches_processed := results.length }) ∧
    (process_page_batch_task page (results.filter (fun r => !r.success)) =
      ⟨true, page, (results.filter (fun r => !r.success)).length,
        0, 0, 0, 0, [], []⟩) := by
  refine ⟨rfl, ?_, ?_⟩
  · have hst : results.foldl pageStep ⟨0, 0, 0, 0, [], []⟩ =
        (results.filter (fun r => r.success)).foldl pageStep ⟨0, 0, 0, 0, [], []⟩ :=
      pageFold_filter results _
    unfold process_page_batch_task
    rw [hst]
  · have hall : ∀ r ∈ results.filter (fun r => !r.success), r.success = false := by
      intro r hr
      have := (List.mem_filter.mp hr).2
      simpa using this
    unfold process_page_batch_task
    rw [pageFold_all_fail _ _ hall]
    rfl

/-! ### Batch partitioning (C7) -/

theorem create_batches_join {α : Type} (n : Nat) (hn : 0 < n) :
    ∀ (l : List α), (create_batches n l).join = l := by
  intro l
  induction l using create_batches.induct n with
  | case1 => simp [create_batches]
  | case2 x t hbs => omega
  | case3 x t hbs ih =>
    simp only [create_batches]
    rw [dif_neg hbs]
    simp only [List.join] at ih ⊢
    rw [List.flatten_cons, ih]
    exact List.take_append_drop n (x :: t)

theorem create_batches_length {α : Type} (n : Nat) (hn : 0 < n) :
    ∀ (l : List α), (create_batches n l).length = (l.length + n - 1) / n := by
  intro l
  induction l using create_batches.induct n with
  | case1 =>
    simp only [create_batches, List.length_nil]
    symm
    apply Nat.div_eq_of_lt
    omega
  | case2 x t hbs => omega
  | case3 x t hbs ih =>
    simp only [create_batches]
    rw [dif_neg hbs]
    simp only [List.length_cons, List.length_drop] at ih ⊢
    rw [ih]
    by_cases hmn : t.length + 1 ≤ n
    · have h1 : (t.length + 1 - n + n - 1) / n = 0 := Nat.div_eq_of_lt (by omega)
      have h2 : (t.length + 1 + n - 1) / n = 1 :=
        Nat.div_eq_of_lt_le (by omega) (by omega)
      rw [h1, h2]
    · have harith : t.length + 1 + n - 1 = (t.length + 1 - n + n - 1) + n := by
        omega
      rw [harith, Nat.add_div_right _ hn]

theorem create_batches_sizes {α : Type} (n : Nat) (hn : 0 < n) :
    ∀ (l : List α), ∀ b ∈ create_batches n l, b.length ≤ n ∧ b ≠ [] := by
  intro l
  induction l using create_batches.induct n with
  | case1 => intro b hb; simp [create_batches] at hb
  | case2 x t hbs => omega
  | case3 x t hbs ih =>
    intro b hb
    simp only [create_batches] at hb
    rw [dif_neg hbs] at hb
    rcases List.mem_cons.mp hb with h | h
    · subst h
      constructor
      · rw [List.length_take]
        omega
      · obtain ⟨k, rfl⟩ := Nat.exists_eq_succ_of_ne_zero hbs
        simp [List.take_succ_cons]
    · exact ih b h

theorem create_batches_dropLast {α : Type} (n : Nat) (hn : 0 < n) :
    ∀ (l : List α), ∀ b ∈ (create_batches n l).dropLast, b.length = n := by
  intro l
  induction l using create_batches.induct n with
  | case1 => intro b hb; simp [create_batches] at hb
  | case2 x t hbs => omega
  | case3 x t hbs ih =>
    intro b hb
    simp only [create_batches] at hb
    rw [dif_neg hbs] at hb
    cases hr : create_batches n (List.drop n (x :: t)) with
    | nil => rw [hr] at hb; simp at hb
    | cons c cs =>
      rw [hr, List.dropLast_cons₂] at hb
      rcases List.mem_cons.mp hb with h | h
      · subst h
        have hd : List.drop n (x :: t) ≠ [] := by
          intro hnil
          rw [hnil] at hr
          simp [create_batches] at hr
        have hlen : n ≤ (x :: t).length := by
          by_contra hlt
          push_neg at hlt
          exact hd (List.drop_eq_nil_iff_le.mpr (by omega))
        rw [List.length_take]
        omega
      · exact ih b (by rw [hr]; exact h)

/-- C7: for every list `L` and batch size `n > 0`, `create_batches` is a
contiguous order-preserving partition: concatenating the batches yields
`L`; every batch has length at most `n` and is non-empty; every batch
except possibly the last has length exactly `n`; and the number of batches
is `get_batch_count n L.length`, which equals the ceiling division
`L.length ⌈/⌉ n`.  Both functions are pure in the source (no attribute
reads or writes beyond `batch_size`), which the embedding reflects. -/
theorem c7_partition {α : Type} (L : List α) (n : Nat) (hn : 0 < n) :
    ((create_batches n L).join = L) ∧
    ((create_batches n L).all
      (fun b => decide (b.length ≤ n) && !(b.isEmpty)) = true) ∧
    (((create_batches n L).dropLast).all
      (fun b => decide (b.length = n)) = true) ∧
    ((create_batches n L).length = get_batch_count n L.length) ∧
    (get_batch_count n L.length = L.length ⌈/⌉ n) := by
  refine ⟨create_batches_join n hn L, ?_, ?_, ?_, ?_⟩
  · rw [List.all_eq_true]
    intro b hb
    obtain ⟨h1, h2⟩ := create_batches_sizes n hn L b hb
    simp [h1, h2]
  · rw [List.all_eq_true]
    intro b hb
    simp [create_batches_dropLast n hn L b hb]
  · rw [create_batches_length n hn L]
    rfl
  · rw [Nat.ceilDiv_eq_add_pred_div]
    rfl

/-- Witness for C7: the partition facts hold concretely for the list
`[1, 2, 3, 4, 5]` with batch size 2 (batches `[[1,2],[3,4],[5]]`). -/
theorem c7_partition_witness :
    (0 : Nat) < 2 ∧
    (((create_batches 2 [1, 2, 3, 4, 5]).join = [1, 2, 3, 4, 5]) ∧
      ((create_batches 2 [1, 2, 3, 4, 5]).all
        (fun b => decide (b.length ≤ 2) && !(b.isEmpty)) = true) ∧
      (((create_batches 2 [1, 2, 3, 4, 5]).dropLast).all
        (fun b => decide (b.length = 2)) = true) ∧
      ((create_batches 2 [1, 2, 3, 4, 5]).length = get_batch_count 2 5) ∧
      (get_batch_count 2 5 = 5 ⌈/⌉ 2)) :=
  ⟨by decide, c7_partition [1, 2, 3, 4, 5] 2 (by decide)⟩
